import Mathlib

/-!
Verification of the WushiK card-game rules engine.

The definitions below are a shallow embedding of the repository's game logic:
`src/src/lib/gameLogic.ts` (card model, hand classifier, hand comparator, dealing),
the AI module (`makeAIMove` and helpers), and the turn/round state machine of
`src/src/components/Game.tsx` (`handlePass`, `collectCards`, `endRound`).
TypeScript optional fields become `Option` (absent = `none`, matching `undefined`),
JavaScript numbers used as card values become `Int` (so that `Array.indexOf`
returning `-1` is representable), point tallies are `Nat`, and the one
`Math.random()` draw a decision procedure may consume is passed in as an
explicit rational parameter.
-/

namespace WushiK

/-- Suits (src/src/types/game.ts `Suit`). -/
inductive Suit where
  | clubs | diamonds | hearts | spades
deriving DecidableEq, Repr

/-- The thirteen ranks (src/src/types/game.ts `Rank`), in the source's `RANK_ORDER`. -/
inductive Rank where
  | r3 | r4 | r5 | r6 | r7 | r8 | r9 | r10 | rJ | rQ | rK | rA | r2
deriving DecidableEq, Repr

/-- Joker subtypes (src/src/types/game.ts `JokerType`). -/
inductive JokerType where
  | small | big
deriving DecidableEq, Repr

/-- A card (src/src/types/game.ts `Card`).  `suit`, `rank`, `jokerType` are optional
in TypeScript; `none` models an absent (`undefined`) field. -/
structure Card where
  id : String
  suit : Option Suit := none
  rank : Option Rank := none
  jokerType : Option JokerType := none
  isJoker : Bool
deriving DecidableEq, Repr

/-- Placeholder card used where the TypeScript indexes past the end of an array
(`xs[0]` on an empty array); such accesses never happen on the inputs the game
produces. -/
def dfltCard : Card := { id := "", isJoker := false }

/-- Hand kinds (src/src/types/game.ts `HandType`). -/
inductive HandType where
  | single | pair | triple | straight | tripleDouble | wushik | bomb
deriving DecidableEq, Repr

/-- A played hand on the table (src/src/types/game.ts `PlayedHand`). -/
structure PlayedHand where
  cards : List Card
  type : HandType
  playerId : String
  playerName : String
deriving DecidableEq, Repr

/-- A player (src/src/types/game.ts `Player`).  `firstPlaceCount` is a display
statistic; point fields are `Nat` (the game only ever adds nonnegative points). -/
structure Player where
  id : String
  name : String
  hand : List Card
  tempPoints : Nat
  totalPoints : Nat
  hasFinished : Bool
  finishPosition : Option Nat := none
  isAI : Bool := false
  firstPlaceCount : Nat := 0
deriving DecidableEq, Repr

/-- Placeholder player for out-of-range array accesses (never reached on the
states the game produces). -/
def dfltPlayer : Player :=
  { id := "", name := "", hand := [], tempPoints := 0, totalPoints := 0, hasFinished := false }

/-- Game phase (src/src/types/game.ts `GameState.gameStatus`). -/
inductive GameStatus where
  | waiting | playing | roundEnd | roundReveal | gameEnd
deriving DecidableEq, Repr

/-- The root game state (src/src/types/game.ts `GameState`).  UI-only fields
(`theme`, `playLog`, `turnStartTime`, `aiDifficulty`) are omitted: no transition
modelled here reads them. -/
structure GameState where
  id : String
  players : List Player
  currentPlayerId : String
  deck : List Card := []
  currentHand : Option PlayedHand
  playedCards : List Card
  passedPlayerIds : List String
  roundNumber : Nat
  targetPoints : Nat
  gameStatus : GameStatus
  winnerId : Option String := none
  firstPlayerId : Option String := none
  lastPlayerId : Option String := none
deriving DecidableEq, Repr

/-- Position of a present rank in `RANK_ORDER` (gameLogic.ts:4,11): position 0–12. -/
def rankIndex : Rank → Int
  | .r3 => 0 | .r4 => 1 | .r5 => 2 | .r6 => 3 | .r7 => 4 | .r8 => 5 | .r9 => 6
  | .r10 => 7 | .rJ => 8 | .rQ => 9 | .rK => 10 | .rA => 11 | .r2 => 12

/-- Card value, `getCardValue` (gameLogic.ts:7-12).  Jokers map to 100 (small) / 101 (anything
else, since `card.jokerType === 'small' ? 100 : 101`); a non-joker's rank maps to
its `RANK_ORDER` index, and a missing rank gives `Array.indexOf`'s `-1`. -/
def getCardValue (c : Card) : Int :=
  if c.isJoker then (if c.jokerType = some JokerType.small then 100 else 101)
  else
    match c.rank with
    | some r => rankIndex r
    | none => -1

/-- Point value, `getCardPoints` (gameLogic.ts:14-19): rank 5 is worth 5, ranks 10 and K are
worth 10, everything else (jokers included, their `rank` being absent) is 0. -/
def getCardPoints (c : Card) : Nat :=
  match c.rank with
  | some Rank.r5 => 5
  | some Rank.r10 => 10
  | some Rank.rK => 10
  | _ => 0

/-- Suit position, `SUIT_ORDER.indexOf` (gameLogic.ts:5): clubs 0, diamonds 1, hearts 2, spades 3,
and `-1` for an absent suit (`indexOf(undefined)`). -/
def suitIndex : Option Suit → Int
  | some .clubs => 0 | some .diamonds => 1 | some .hearts => 2 | some .spades => 3
  | none => -1

/-- Stable insertion of one element into a list sorted ascending by `key`;
building block for the stable `Array.prototype.sort` the source relies on. -/
def insertByKey {α : Type} (key : α → Int) (x : α) : List α → List α
  | [] => [x]
  | y :: rest => if key x ≤ key y then x :: y :: rest else y :: insertByKey key x rest

/-- Stable sort ascending by `key`; models the JavaScript
`xs.sort((a, b) => key(a) - key(b))` idiom (a stable sort by that key). -/
def sortByKey {α : Type} (key : α → Int) (l : List α) : List α :=
  l.foldr (insertByKey key) []

/-- Sorting a selection, `[...cards].sort((a, b) => getCardValue(a) - getCardValue(b))`
(gameLogic.ts:26). -/
def sortByValue (cards : List Card) : List Card :=
  sortByKey getCardValue cards

/-- The straight test of `validateHand` (gameLogic.ts:56-60): every card after the
first is a non-joker whose value is exactly one more than its predecessor's. -/
def straightChain : List Card → Bool
  | [] => true
  | [_] => true
  | a :: b :: rest =>
      (!b.isJoker && decide (getCardValue b = getCardValue a + 1)) && straightChain (b :: rest)

/-- The pair-decomposition loop of the triple-double test (gameLogic.ts:66-70):
consume the sorted cards two at a time; each chunk must share a rank, recording
the value of its first card.  The caller guarantees an even length, so the
single-card case is unreachable (it mirrors the loop's early `return null`). -/
def tdPairValues : List Card → Option (List Int)
  | [] => some []
  | [_] => none
  | a :: b :: rest =>
      if a.rank = b.rank then (tdPairValues rest).map (fun vs => getCardValue a :: vs)
      else none

/-- The consecutiveness test over pair values (gameLogic.ts:72-75). -/
def consecChain : List Int → Bool
  | [] => true
  | [_] => true
  | a :: b :: rest => decide (b = a + 1) && consecChain (b :: rest)

/-- Hand classification, `validateHand` (gameLogic.ts:22-81): classify a selection of cards, first
match in the source's order winning.  Note the pair/triple checks compare the
optional `rank` fields, so two absent ranks (`undefined === undefined`) compare
equal exactly as in JavaScript. -/
def validateHand (cards : List Card) : Option HandType :=
  if cards.length = 0 then none
  else if cards.length = 1 then some HandType.single
  else if cards.length = 2 ∧ ((sortByValue cards).getD 0 dfltCard).rank
      = ((sortByValue cards).getD 1 dfltCard).rank then
    some HandType.pair
  else if cards.length = 3 ∧ ((sortByValue cards).getD 0 dfltCard).rank
        = ((sortByValue cards).getD 1 dfltCard).rank
      ∧ ((sortByValue cards).getD 1 dfltCard).rank = ((sortByValue cards).getD 2 dfltCard).rank then
    some HandType.triple
  else if cards.length = 3 ∧ (some Rank.r5) ∈ (sortByValue cards).map Card.rank
      ∧ (some Rank.r10) ∈ (sortByValue cards).map Card.rank
      ∧ (some Rank.rK) ∈ (sortByValue cards).map Card.rank then
    some HandType.wushik
  else if 4 ≤ cards.length ∧ (sortByValue cards).all (fun c =>
      decide (c.rank = ((sortByValue cards).getD 0 dfltCard).rank) && !c.isJoker) then
    some HandType.bomb
  else if 5 ≤ cards.length ∧ straightChain (sortByValue cards) = true then
    some HandType.straight
  else if 6 ≤ cards.length ∧ cards.length % 2 = 0 then
    match tdPairValues (sortByValue cards) with
    | some vs => if consecChain vs = true ∧ 3 ≤ vs.length then some HandType.tripleDouble else none
    | none => none
  else none

/-- Same-suit test, `isSameSuitWuShiK` (gameLogic.ts:137-140): every mapped suit equals the first
one (`suits.every(s => s === suits[0])`, vacuously true on an empty list). -/
def isSameSuitWuShiK (cards : List Card) : Bool :=
  (cards.map Card.suit).all (fun s => decide (s = (cards.map Card.suit).headD none))

/-- Wushik tie-break, `compareWuShiK` (gameLogic.ts:119-135): same-suit beats mixed-suit; two
same-suit wushiks compare by suit order of their first card; two mixed-suit
wushiks tie (`false`). -/
def compareWuShiK (newCards currentCards : List Card) : Bool :=
  if isSameSuitWuShiK newCards = true ∧ isSameSuitWuShiK currentCards = false then true
  else if isSameSuitWuShiK newCards = false ∧ isSameSuitWuShiK currentCards = true then false
  else if isSameSuitWuShiK newCards = true ∧ isSameSuitWuShiK currentCards = true then
    decide (suitIndex (newCards.headD dfltCard).suit > suitIndex (currentCards.headD dfltCard).suit)
  else false

/-- Bomb tie-break, `compareBombs` (gameLogic.ts:142-151): a longer bomb wins outright; equal
lengths compare the first card's value strictly. -/
def compareBombs (newCards currentCards : List Card) : Bool :=
  if newCards.length > currentCards.length then true
  else if newCards.length < currentCards.length then false
  else decide (getCardValue (newCards.headD dfltCard) > getCardValue (currentCards.headD dfltCard))

/-- Maximum card value, `Math.max(...cards.map(getCardValue))` (gameLogic.ts:113-114).  The fold start
`-1000` stands for the empty spread's `-Infinity`; every real card value is at
least `-1`, so on nonempty lists this is the true maximum. -/
def maxCardValue (cards : List Card) : Int :=
  (cards.map getCardValue).foldl max (-1000)

/-- The comparator, `canBeatHand` (gameLogic.ts:84-117).  Power hands (bomb, wushik) beat any
non-power hand; two power hands compare by `compareWuShiK` / `compareBombs`, a
bomb beating a wushik and never conversely; non-power hands must match in kind
and card count and then compare their maximum card values strictly. -/
def canBeatHand (newHand currentHand : PlayedHand) : Bool :=
  if newHand.type = HandType.bomb ∨ newHand.type = HandType.wushik then
    if ¬(currentHand.type = HandType.bomb) ∧ ¬(currentHand.type = HandType.wushik) then true
    else if newHand.type = HandType.wushik ∧ currentHand.type = HandType.wushik then
      compareWuShiK newHand.cards currentHand.cards
    else if newHand.type = HandType.bomb ∧ currentHand.type = HandType.bomb then
      compareBombs newHand.cards currentHand.cards
    else if newHand.type = HandType.wushik ∧ currentHand.type = HandType.bomb then false
    else true
  else if ¬(newHand.type = currentHand.type) then false
  else if ¬(newHand.cards.length = currentHand.cards.length) then false
  else decide (maxCardValue newHand.cards > maxCardValue currentHand.cards)

/-- Distribution loop of `dealCards` (gameLogic.ts:209-217):
`deck.forEach((card, idx) => hands[idx % numPlayers].push(card))`, processing the
deck from index `i` with the accumulated hands. -/
def dealGo (P : Nat) : List Card → Nat → List (List Card) → List (List Card)
  | [], _, hands => hands
  | c :: rest, i, hands =>
      dealGo P rest (i + 1) (hands.set (i % P) (hands.getD (i % P) [] ++ [c]))

/-- Dealing, `dealCards` (gameLogic.ts:209-217): start from `numPlayers` empty hands and
push card `i` onto hand `i % numPlayers`. -/
def dealCards (deck : List Card) (numPlayers : Nat) : List (List Card) :=
  dealGo numPlayers deck 0 (List.replicate numPlayers [])

/-- AI difficulty tiers (AI module, `Difficulty`). -/
inductive Difficulty where
  | easy | medium | hard
deriving DecidableEq, Repr

/-- The AI's decision (`{ action: 'play' | 'pass'; cards? }`). -/
inductive AIMove where
  | play (cards : List Card)
  | pass
deriving DecidableEq, Repr

/-- First-occurrence deduplication of the rank keys, mirroring the insertion
order of a JavaScript `Map` built by one pass over the hand. -/
def dedupKeys : List (Option Rank) → List (Option Rank)
  | [] => []
  | k :: rest => k :: dedupKeys (rest.filter (fun x => decide (x ≠ k)))
termination_by l => l.length
decreasing_by
  simp only [List.length_cons]
  exact Nat.lt_succ_of_le (List.length_filter_le _ _)

/-- Keys of the rank-grouping `Map` the AI helpers build (non-joker cards only),
in insertion order. -/
def groupKeys (hand : List Card) : List (Option Rank) :=
  dedupKeys ((hand.filter (fun c => !c.isJoker)).map Card.rank)

/-- The group of a rank key: the hand's non-joker cards carrying that rank, in
hand order (what the `Map`'s array for that key holds). -/
def rankGroup (hand : List Card) (k : Option Rank) : List Card :=
  hand.filter (fun c => !c.isJoker && decide (c.rank = k))

/-- The rank groups of size at least 2, trimmed to their first two cards
(`cards.slice(0, 2)`), in `Map` insertion order. -/
def pairGroups (hand : List Card) : List (List Card) :=
  (groupKeys hand).filterMap (fun k =>
    if 2 ≤ (rankGroup hand k).length then some ((rankGroup hand k).take 2) else none)

/-- The rank groups of size at least 3, trimmed to their first three cards. -/
def tripleGroups (hand : List Card) : List (List Card) :=
  (groupKeys hand).filterMap (fun k =>
    if 3 ≤ (rankGroup hand k).length then some ((rankGroup hand k).take 3) else none)

/-- Pair search, `findPairs` (AI module): the available pairs, sorted ascending by the value
of their first card. -/
def findPairs (hand : List Card) : List (List Card) :=
  sortByKey (fun g => getCardValue (g.headD dfltCard)) (pairGroups hand)

/-- Triple search, `findTriples` (AI module): the available triples, sorted ascending by the
value of their first card. -/
def findTriples (hand : List Card) : List (List Card) :=
  sortByKey (fun g => getCardValue (g.headD dfltCard)) (tripleGroups hand)

/-- Candidate plays, `findHandsOfType` (AI module): candidate plays of the active hand's kind.
Singles are returned unsorted (the source returns early); pairs and triples are
grouped by rank and sorted; other kinds produce no candidates. -/
def findHandsOfType (hand : List Card) (type : HandType) : List (List Card) :=
  match type with
  | HandType.single => hand.map (fun c => [c])
  | HandType.pair => findPairs hand
  | HandType.triple => findTriples hand
  | _ => []

/-- Power combos, `findPowerCombos` (AI module): every full rank group of size at least 4
(whole group, not a slice), then one wushik built from the first 5, first 10 and
first K in the hand when all three exist. -/
def findPowerCombos (hand : List Card) : List (List Card) :=
  let bombs := (groupKeys hand).filterMap (fun k =>
    if 4 ≤ (rankGroup hand k).length then some (rankGroup hand k) else none)
  let fives := hand.filter (fun c => !c.isJoker && decide (c.rank = some Rank.r5))
  let tens := hand.filter (fun c => !c.isJoker && decide (c.rank = some Rank.r10))
  let kings := hand.filter (fun c => !c.isJoker && decide (c.rank = some Rank.rK))
  bombs ++
    (match fives, tens, kings with
     | f :: _, t :: _, k :: _ => [[f, t, k]]
     | _, _, _ => [])

/-- Beating-hand search, `findBeatingHand` (AI module): all same-kind candidates that beat the active
hand; if none, the first power combo that classifies as a bomb or wushik and
beats it; otherwise pick by difficulty — easy the last (highest), medium the
middle index, hard the first (lowest). -/
def findBeatingHand (player : Player) (currentHand : PlayedHand) (difficulty : Difficulty) :
    Option (List Card) :=
  let beatingPlays := (findHandsOfType player.hand currentHand.type).filter (fun cards =>
    canBeatHand ⟨cards, currentHand.type, player.id, player.name⟩ currentHand)
  if beatingPlays.length = 0 then
    ((findPowerCombos player.hand).filter (fun cards =>
      match validateHand cards with
      | some HandType.bomb => canBeatHand ⟨cards, HandType.bomb, player.id, player.name⟩ currentHand
      | some HandType.wushik =>
          canBeatHand ⟨cards, HandType.wushik, player.id, player.name⟩ currentHand
      | _ => false)).head?
  else
    match difficulty with
    | Difficulty.easy => some (beatingPlays.getD (beatingPlays.length - 1) [])
    | Difficulty.medium => some (beatingPlays.getD (beatingPlays.length / 2) [])
    | Difficulty.hard => some (beatingPlays.getD 0 [])

/-- Play-or-pass policy, `shouldAIPlay` (AI module): easy always plays; medium plays when the random
draw `r` is below 0.7; hard withholds (plays only when `r < 0.3`) exactly when
the candidate has a card of value above 10, the active trick has at most 3 cards
and the AI still holds more than 5 cards. -/
def shouldAIPlay (player : Player) (currentHand : PlayedHand) (beatingHand : List Card)
    (difficulty : Difficulty) (r : ℚ) : Bool :=
  match difficulty with
  | Difficulty.easy => true
  | Difficulty.medium => decide (r < 7 / 10)
  | Difficulty.hard =>
    if 0 < (beatingHand.filter (fun c => decide (getCardValue c > 10))).length
        ∧ ¬(currentHand.cards.length > 3) ∧ player.hand.length > 5 then
      decide (r < 3 / 10)
    else true

/-- Leading move, `playStartingHand` (AI module): lead a fresh trick — easy with the lowest
single; medium with the lowest pair, else the lowest single; hard with the
lowest triple, else pair, else single. -/
def playStartingHand (player : Player) (difficulty : Difficulty) : AIMove :=
  match difficulty with
  | Difficulty.easy => AIMove.play [(sortByValue player.hand).headD dfltCard]
  | Difficulty.medium =>
    match findPairs (sortByValue player.hand) with
    | p :: _ => AIMove.play p
    | [] => AIMove.play [(sortByValue player.hand).headD dfltCard]
  | Difficulty.hard =>
    match findTriples (sortByValue player.hand) with
    | t :: _ => AIMove.play t
    | [] =>
      match findPairs (sortByValue player.hand) with
      | p :: _ => AIMove.play p
      | [] => AIMove.play [(sortByValue player.hand).headD dfltCard]

/-- The AI decision procedure, `makeAIMove` (AI module): with no active hand, lead via `playStartingHand`;
otherwise play a beating hand if one is found and the play-or-pass policy
(consuming the random draw `r`) agrees, else pass. -/
def makeAIMove (player : Player) (currentHand : Option PlayedHand) (difficulty : Difficulty)
    (r : ℚ) : AIMove :=
  match currentHand with
  | none => playStartingHand player difficulty
  | some ch =>
    match findBeatingHand player ch difficulty with
    | some beatingHand =>
        if shouldAIPlay player ch beatingHand difficulty r then AIMove.play beatingHand
        else AIMove.pass
    | none => AIMove.pass

/-- Modelled from the spec's words for comparison with the source (spec §4.6):
the spec glosses the hard AI's high-card test as "ranked above 10 (i.e., J, Q,
K, A, 2, or joker)".  This predicate is that claimed set. -/
def specIsHighCard (c : Card) : Bool :=
  c.isJoker ||
    (match c.rank with
     | some Rank.rJ | some Rank.rQ | some Rank.rK | some Rank.rA | some Rank.r2 => true
     | _ => false)

/-- Modelled from the spec's words for comparison with the source: `shouldAIPlay`
with the hard tier's high-card filter replaced by the spec's claimed set. -/
def shouldAIPlaySpec (player : Player) (currentHand : PlayedHand) (beatingHand : List Card)
    (difficulty : Difficulty) (r : ℚ) : Bool :=
  match difficulty with
  | Difficulty.easy => true
  | Difficulty.medium => decide (r < 7 / 10)
  | Difficulty.hard =>
    if 0 < (beatingHand.filter specIsHighCard).length
        ∧ ¬(currentHand.cards.length > 3) ∧ player.hand.length > 5 then
      decide (r < 3 / 10)
    else true

/-- Turn advance, `getNextPlayerId` (Game.tsx:724-732): among the non-finished players, step to
the index after the current player's (wrapping), or to index 0 when the current
player is not found (`(-1 + 1) % n = 0`). -/
def getNextPlayerId (gs : GameState) : String :=
  let active := gs.players.filter (fun p => !p.hasFinished)
  let nextIdx :=
    match active.findIdx? (fun p => decide (p.id = gs.currentPlayerId)) with
    | some i => (i + 1) % active.length
    | none => 0
  (active.getD nextIdx dfltPlayer).id

/-- Trick collection, `collectCards` (Game.tsx:507-532): when a hand is active, its owner collects
the played-card pool — the pool's positive-point cards are summed and credited
to the owner's `tempPoints`, the hand and pool and passed-set are cleared, and
the owner leads next.  With no active hand the function returns early. -/
def collectCards (gs : GameState) : GameState :=
  match gs.currentHand with
  | none => gs
  | some ch =>
    let points := (gs.playedCards.filter (fun c => decide (0 < getCardPoints c))).foldl
      (fun sum c => sum + getCardPoints c) 0
    { gs with
      players := gs.players.map (fun p =>
        if p.id = ch.playerId then { p with tempPoints := p.tempPoints + points } else p),
      currentHand := none,
      playedCards := [],
      passedPlayerIds := [],
      currentPlayerId := ch.playerId }

/-- Passing, `handlePass` (Game.tsx:481-505): append the passer to the passed-set; if the
non-finished players other than the active hand's owner are exactly as many as
the new passed-set, the trick is collected; otherwise record the pass and
advance the turn. -/
def handlePass (gs : GameState) (playerId : String) : GameState :=
  let newPassedIds := gs.passedPlayerIds ++ [playerId]
  let activePlayers := gs.players.filter (fun p => !p.hasFinished)
  if (activePlayers.filter (fun p =>
        decide (¬(some p.id = gs.currentHand.map PlayedHand.playerId)))).length
      = newPassedIds.length then
    collectCards gs
  else
    { gs with passedPlayerIds := newPassedIds, currentPlayerId := getNextPlayerId gs }

/-- The pass entry point as exposed to a player.  The Pass button is rendered
with `onClick={handlePass}` and `disabled={!isMyTurn() || !gameState.currentHand}`
(Game.tsx:1297-1298, identically in the variant file), and `handlePass` itself
returns early unless `isMyTurn()`; so a pass attempt yields no transition
(`none`) unless it is the acting player's turn and a hand is active. -/
def passAction (gs : GameState) (pid : String) : Option GameState :=
  if gs.currentPlayerId = pid ∧ ¬(gs.currentHand = none) then some (handlePass gs pid)
  else none

/-- Hand points, `lastPlayer.hand.reduce((sum, card) => sum + getCardPoints(card), 0)`
(Game.tsx:632). -/
def handPoints (cards : List Card) : Nat :=
  cards.foldl (fun sum c => sum + getCardPoints c) 0

/-- The redistribution step of `endRound` (Game.tsx:620-660; the same computation
appears in `continueFromReveal` of the variant file): find the finish-position-1
and finish-position-2 players (erroring out — `none` — when either is missing),
then give every player their own `tempPoints`, the 1st-place player additionally
the last player's `tempPoints`, the 2nd-place player additionally the last
player's remaining-hand points, and the last player exactly zero; `tempPoints`
and the finish flags are reset.  The subsequent winner/phase bookkeeping of
`endRound` does not touch these totals and is not needed by the claims. -/
def endRound (players : List Player) (lastPlayer : Player) : Option (List Player) :=
  match players.find? (fun p => decide (p.finishPosition = some 1)),
        players.find? (fun p => decide (p.finishPosition = some 2)) with
  | some firstPlace, some secondPlace =>
    let lastPlayerHandPoints := handPoints lastPlayer.hand
    some (players.map (fun p =>
      let add1 := p.tempPoints
      let add2 := if p.id = firstPlace.id then add1 + lastPlayer.tempPoints else add1
      let add3 := if p.id = secondPlace.id then add2 + lastPlayerHandPoints else add2
      let pointsToAdd := if p.id = lastPlayer.id then 0 else add3
      { p with
        totalPoints := p.totalPoints + pointsToAdd,
        tempPoints := 0,
        hasFinished := false,
        finishPosition := none }))
  | _, _ => none

/-! Concrete fixtures used by witnesses and counterexamples (cards as
`createDeck` builds them, gameLogic.ts:154-186). -/

/-- A non-joker card as `createDeck` constructs it. -/
def mkCard (i : String) (s : Suit) (r : Rank) : Card :=
  { id := i, suit := some s, rank := some r, isJoker := false }

def jokerSmall0 : Card := { id := "0-joker-small", isJoker := true, jokerType := some JokerType.small }

def jokerBig0 : Card := { id := "0-joker-big", isJoker := true, jokerType := some JokerType.big }

def threeClubs : Card := mkCard "0-clubs-3" Suit.clubs Rank.r3
def threeDiamonds : Card := mkCard "0-diamonds-3" Suit.diamonds Rank.r3
def threeHearts : Card := mkCard "0-hearts-3" Suit.hearts Rank.r3
def threeSpades : Card := mkCard "0-spades-3" Suit.spades Rank.r3
def threeClubs1 : Card := mkCard "1-clubs-3" Suit.clubs Rank.r3
def fourClubs : Card := mkCard "0-clubs-4" Suit.clubs Rank.r4
def fourDiamonds : Card := mkCard "0-diamonds-4" Suit.diamonds Rank.r4
def fourHearts : Card := mkCard "0-hearts-4" Suit.hearts Rank.r4
def fourSpades : Card := mkCard "0-spades-4" Suit.spades Rank.r4
def fiveClubs : Card := mkCard "0-clubs-5" Suit.clubs Rank.r5
def sixClubs : Card := mkCard "0-clubs-6" Suit.clubs Rank.r6
def sevenClubs : Card := mkCard "0-clubs-7" Suit.clubs Rank.r7
def eightClubs : Card := mkCard "0-clubs-8" Suit.clubs Rank.r8
def tenDiamonds : Card := mkCard "0-diamonds-10" Suit.diamonds Rank.r10
def kingClubs : Card := mkCard "0-clubs-K" Suit.clubs Rank.rK
def kingHearts : Card := mkCard "0-hearts-K" Suit.hearts Rank.rK
def aceClubs : Card := mkCard "0-clubs-A" Suit.clubs Rank.rA
def aceDiamonds : Card := mkCard "0-diamonds-A" Suit.diamonds Rank.rA
def aceHearts : Card := mkCard "0-hearts-A" Suit.hearts Rank.rA
def aceSpades : Card := mkCard "0-spades-A" Suit.spades Rank.rA

def bombThrees4 : PlayedHand :=
  { cards := [threeClubs, threeDiamonds, threeHearts, threeSpades],
    type := HandType.bomb, playerId := "a", playerName := "A" }

def bombThrees5 : PlayedHand :=
  { cards := [threeClubs, threeDiamonds, threeHearts, threeSpades, threeClubs1],
    type := HandType.bomb, playerId := "a", playerName := "A" }

def bombFours4 : PlayedHand :=
  { cards := [fourClubs, fourDiamonds, fourHearts, fourSpades],
    type := HandType.bomb, playerId := "a", playerName := "A" }

def bombAces4 : PlayedHand :=
  { cards := [aceClubs, aceDiamonds, aceHearts, aceSpades],
    type := HandType.bomb, playerId := "b", playerName := "B" }

def wushikMixed : PlayedHand :=
  { cards := [fiveClubs, tenDiamonds, kingHearts],
    type := HandType.wushik, playerId := "b", playerName := "B" }

def singleFour : PlayedHand :=
  { cards := [fourClubs], type := HandType.single, playerId := "c", playerName := "C" }

def singleThree : PlayedHand :=
  { cards := [threeDiamonds], type := HandType.single, playerId := "x", playerName := "X" }

/-- A hard-difficulty AI holding six low cards. -/
def aiSixCards : Player :=
  { id := "ai", name := "AI",
    hand := [threeClubs, fourClubs, fiveClubs, sixClubs, sevenClubs, eightClubs],
    tempPoints := 0, totalPoints := 0, hasFinished := false, isAI := true }

def wPlayerA : Player :=
  { id := "a", name := "A", hand := [fourClubs], tempPoints := 0, totalPoints := 0,
    hasFinished := false }

def wPlayerB : Player :=
  { id := "b", name := "B", hand := [sixClubs], tempPoints := 0, totalPoints := 0,
    hasFinished := false }

def wPlayerC : Player :=
  { id := "c", name := "C", hand := [sevenClubs], tempPoints := 0, totalPoints := 0,
    hasFinished := false }

/-- The single five of clubs led by player `a`. -/
def wTrickHand : PlayedHand :=
  { cards := [fiveClubs], type := HandType.single, playerId := "a", playerName := "A" }

/-- Mid-trick state: `a` led the five of clubs, `b` has passed, `c` is to act. -/
def wPassState : GameState :=
  { id := "g", players := [wPlayerA, wPlayerB, wPlayerC], currentPlayerId := "c",
    currentHand := some wTrickHand, playedCards := [fiveClubs], passedPlayerIds := ["b"],
    roundNumber := 1, targetPoints := 100, gameStatus := GameStatus.playing }

/-- Fresh-trick state: no hand is active and `a` must lead. -/
def wLeadState : GameState :=
  { id := "g", players := [wPlayerA, wPlayerB, wPlayerC], currentPlayerId := "a",
    currentHand := none, playedCards := [], passedPlayerIds := [],
    roundNumber := 1, targetPoints := 100, gameStatus := GameStatus.playing }

def wFirstPlace : Player :=
  { id := "p1", name := "P1", hand := [], tempPoints := 12, totalPoints := 0,
    hasFinished := true, finishPosition := some 1 }

def wSecondPlace : Player :=
  { id := "p2", name := "P2", hand := [], tempPoints := 5, totalPoints := 0,
    hasFinished := true, finishPosition := some 2 }

/-- Round loser still holding the king of clubs (10 hand points). -/
def wLastPlace : Player :=
  { id := "p3", name := "P3", hand := [kingClubs], tempPoints := 3, totalPoints := 0,
    hasFinished := false }

def wRoundPlayers : List Player := [wFirstPlace, wSecondPlace, wLastPlace]

/-- A five-card deck for the dealing witness. -/
def wDeck : List Card := [threeClubs, fourClubs, fiveClubs, sixClubs, sevenClubs]

/-! Supporting lemmas. -/

theorem insertByKey_perm {α : Type} (key : α → Int) (x : α) (l : List α) :
    (insertByKey key x l).Perm (x :: l) := by
  induction l with
  | nil => simp [insertByKey]
  | cons y rest ih =>
    unfold insertByKey
    split
    · exact List.Perm.refl _
    · exact (ih.cons y).trans (List.Perm.swap x y rest)

theorem sortByKey_perm {α : Type} (key : α → Int) (l : List α) : (sortByKey key l).Perm l := by
  induction l with
  | nil => exact List.Perm.refl _
  | cons a rest ih => exact (insertByKey_perm key a (sortByKey key rest)).trans (ih.cons a)

theorem sortByValue_perm (cards : List Card) : (sortByValue cards).Perm cards :=
  sortByKey_perm getCardValue cards

theorem compareBombs_asymm {x y : List Card} (h : compareBombs x y = true) :
    compareBombs y x = false := by
  unfold compareBombs at h ⊢
  split_ifs at h ⊢ <;> simp_all <;> omega

theorem compareWuShiK_asymm {x y : List Card} (h : compareWuShiK x y = true) :
    compareWuShiK y x = false := by
  unfold compareWuShiK at h ⊢
  cases hx : isSameSuitWuShiK x <;> cases hy : isSameSuitWuShiK y <;> simp_all <;> omega

/-- Inverting the classifier on a bomb: at least four cards, all sharing the
first card's `rank` field and none a joker. -/
theorem validateHand_bomb_ranks {cards : List Card} (h : validateHand cards = some HandType.bomb) :
    4 ≤ cards.length ∧ ∀ c ∈ cards, c.rank = (cards.headD dfltCard).rank ∧ c.isJoker = false := by
  unfold validateHand at h
  split_ifs at h with h0 h1 h2 h3 h4 h5 h6 h7 <;>
    first
      | (exfalso; simp at h; done)
      | skip
  · rcases h5 with ⟨hlen, hall⟩
    have hall' : ∀ c ∈ sortByValue cards,
        c.rank = ((sortByValue cards).getD 0 dfltCard).rank ∧ c.isJoker = false := by
      intro c hc
      have := List.all_eq_true.mp hall c hc
      simp only [Bool.and_eq_true, decide_eq_true_eq, Bool.not_eq_true'] at this
      exact this
    refine ⟨hlen, ?_⟩
    have hperm := sortByValue_perm cards
    have hne : cards ≠ [] := by
      intro hnil; rw [hnil] at hlen; simp at hlen
    have hhead : cards.headD dfltCard ∈ cards := by
      cases cards with
      | nil => exact absurd rfl hne
      | cons d rest => simp
    have hheadrank := (hall' _ (hperm.mem_iff.mpr hhead)).1
    intro c hc
    have hcs := hall' c (hperm.mem_iff.mpr hc)
    exact ⟨hcs.1.trans hheadrank.symm, hcs.2⟩
  · cases htd : tdPairValues (sortByValue cards) with
    | none => rw [htd] at h; exact absurd h (by simp)
    | some vs =>
      rw [htd] at h
      have h' : (if consecChain vs = true ∧ 3 ≤ vs.length then some HandType.tripleDouble
          else none) = some HandType.bomb := h
      split_ifs at h' <;> simp at h'

/-! Claim theorems. -/

/-- C3: a bomb or wushik beats any hand whose kind is neither bomb nor wushik; a
bomb always beats a wushik (regardless of either side's cards, so in particular
a minimal 4-card bomb); and a wushik never beats a bomb. -/
theorem power_hand_precedence (a b : PlayedHand) :
    ((a.type = HandType.bomb ∨ a.type = HandType.wushik) →
      ¬(b.type = HandType.bomb) → ¬(b.type = HandType.wushik) → canBeatHand a b = true)
  ∧ (a.type = HandType.bomb → b.type = HandType.wushik → canBeatHand a b = true)
  ∧ (a.type = HandType.wushik → b.type = HandType.bomb → canBeatHand a b = false) := by
  refine ⟨fun hp hb hw => ?_, fun ha hb => ?_, fun ha hb => ?_⟩
  · rcases hp with h | h <;> simp [canBeatHand, h, hb, hw]
  · simp [canBeatHand, ha, hb]
  · simp [canBeatHand, ha, hb]

/-- Witness for C3: the four-threes bomb beats a single and beats a wushik; the
wushik does not beat the bomb. -/
theorem power_hand_precedence_witness :
    canBeatHand bombThrees4 singleFour = true
  ∧ canBeatHand bombThrees4 wushikMixed = true
  ∧ canBeatHand wushikMixed bombThrees4 = false :=
  ⟨(power_hand_precedence bombThrees4 singleFour).1 (Or.inl rfl) (by decide) (by decide),
   (power_hand_precedence bombThrees4 wushikMixed).2.1 rfl rfl,
   (power_hand_precedence wushikMixed bombThrees4).2.2 rfl rfl⟩

/-- C4: the comparator is antisymmetric — `canBeatHand a b` and `canBeatHand b a`
are never both true, across every combination of kinds (including
wushik-vs-wushik suit tie-breaks, equal bombs, and equal-max non-power hands). -/
theorem canBeatHand_antisymm (a b : PlayedHand) (h : canBeatHand a b = true) :
    canBeatHand b a = false := by
  unfold canBeatHand at h ⊢
  cases ha : a.type <;> cases hb : b.type <;> rw [ha, hb] at h <;>
    simp only [reduceCtorEq, not_false_eq_true, and_self, if_true, if_false, or_self,
      or_false, false_or, true_or, or_true, and_true, true_and, false_and, and_false,
      not_true_eq_false, if_neg, ite_true, ite_false] at h ⊢ <;>
    first
      | rfl
      | exact compareBombs_asymm h
      | exact compareWuShiK_asymm h
      | (split_ifs at h ⊢ <;> simp_all <;> omega)

/-- Witness for C4 at a concrete pair: the four-fours bomb beats the four-threes
bomb, and therefore not conversely. -/
theorem canBeatHand_antisymm_witness :
    canBeatHand bombFours4 bombThrees4 = true ∧ canBeatHand bombThrees4 bombFours4 = false :=
  ⟨by decide, canBeatHand_antisymm bombFours4 bombThrees4 (by decide)⟩

/-- C5 counterexample: the claim says two jokers are an invalid selection, never a
pair; but `validateHand` classifies the small-joker/big-joker selection as a
pair, because both cards' absent `rank` fields compare equal
(`undefined === undefined` in the source). -/
theorem two_jokers_classify_as_pair :
    validateHand [jokerSmall0, jokerBig0] = some HandType.pair
  ∧ jokerSmall0.isJoker = true ∧ jokerBig0.isJoker = true
  ∧ jokerSmall0.rank = none ∧ jokerBig0.rank = none := by decide

/-- C5 amended: a two-card selection classifies as a pair if and only if the two
cards' optional `rank` fields are equal; hence a joker never pairs with a ranked
card (absent vs present rank), but two jokers — both rank-less — do form a pair. -/
theorem pair_iff_rank_fields_eq (a b : Card) :
    validateHand [a, b] = some HandType.pair ↔ a.rank = b.rank := by
  by_cases hv : getCardValue a ≤ getCardValue b <;>
    simp [validateHand, sortByValue, sortByKey, insertByKey, hv] <;>
    exact ⟨fun h => h.symm, fun h => h.symm⟩

/-- C7: between two classified bombs, the longer bomb beats the shorter
regardless of rank; equal-length bombs compare strictly by the first card's
value — which is the bomb's rank value, every card of a classified bomb sharing
the first card's rank — so an equal-rank, equal-length bomb does not beat. -/
theorem bomb_comparison (a b : PlayedHand) (ha : a.type = HandType.bomb)
    (hb : b.type = HandType.bomb) (hva : validateHand a.cards = some HandType.bomb)
    (hvb : validateHand b.cards = some HandType.bomb) :
    (b.cards.length < a.cards.length → canBeatHand a b = true)
  ∧ (a.cards.length = b.cards.length →
      (canBeatHand a b = true ↔
        getCardValue (b.cards.headD dfltCard) < getCardValue (a.cards.headD dfltCard)))
  ∧ (a.cards.length = b.cards.length →
      getCardValue (a.cards.headD dfltCard) = getCardValue (b.cards.headD dfltCard) →
      canBeatHand a b = false)
  ∧ (∀ c ∈ a.cards, c.rank = (a.cards.headD dfltCard).rank ∧ c.isJoker = false) := by
  have hred : canBeatHand a b = compareBombs a.cards b.cards := by
    simp [canBeatHand, ha, hb]
  refine ⟨fun hlen => ?_, fun hlen => ?_, fun hlen hv => ?_, (validateHand_bomb_ranks hva).2⟩
  · rw [hred]; unfold compareBombs; split_ifs <;> simp_all
  · rw [hred]; unfold compareBombs; split_ifs <;> simp_all
  · rw [hred]; unfold compareBombs; split_ifs <;> simp_all

/-- Witness for C7: the five-card bomb of threes beats the four-card bomb of
aces, and the four-fours bomb beats the four-threes bomb by rank. -/
theorem bomb_comparison_witness :
    canBeatHand bombThrees5 bombAces4 = true ∧ canBeatHand bombFours4 bombThrees4 = true :=
  ⟨(bomb_comparison bombThrees5 bombAces4 rfl rfl (by decide) (by decide)).1 (by decide),
   ((bomb_comparison bombFours4 bombThrees4 rfl rfl (by decide) (by decide)).2.1
     (by decide)).mpr (by decide)⟩

theorem grouped_take_mem {hand : List Card} {g : List Card} {n : Nat} (hn : 0 < n)
    (hg : g ∈ (groupKeys hand).filterMap (fun k =>
      if n ≤ (rankGroup hand k).length then some ((rankGroup hand k).take n) else none)) :
    g ≠ [] ∧ ∀ c ∈ g, c ∈ hand := by
  rcases List.mem_filterMap.mp hg with ⟨k, _, hcond⟩
  split_ifs at hcond with hlen
  · obtain rfl : (rankGroup hand k).take n = g := Option.some.inj hcond
    constructor
    · intro hnil
      have : ((rankGroup hand k).take n).length = 0 := by rw [hnil]; rfl
      rw [List.length_take] at this
      omega
    · intro c hc
      have hcg : c ∈ hand.filter (fun c => !c.isJoker && decide (c.rank = k)) :=
        List.take_subset n _ hc
      exact List.mem_of_mem_filter hcg

theorem findPairs_mem {hand : List Card} {g : List Card} (hg : g ∈ findPairs hand) :
    g ≠ [] ∧ ∀ c ∈ g, c ∈ hand := by
  unfold findPairs at hg
  have hg' : g ∈ pairGroups hand := (sortByKey_perm _ _).mem_iff.mp hg
  unfold pairGroups at hg'
  exact grouped_take_mem (by norm_num) hg'

theorem findTriples_mem {hand : List Card} {g : List Card} (hg : g ∈ findTriples hand) :
    g ≠ [] ∧ ∀ c ∈ g, c ∈ hand := by
  unfold findTriples at hg
  have hg' : g ∈ tripleGroups hand := (sortByKey_perm _ _).mem_iff.mp hg
  unfold tripleGroups at hg'
  exact grouped_take_mem (by norm_num) hg'

theorem sortByValue_ne_nil {hand : List Card} (h : hand ≠ []) : sortByValue hand ≠ [] := by
  intro hnil
  apply h
  have hlen := (sortByValue_perm hand).length_eq
  rw [hnil] at hlen
  exact List.length_eq_zero.mp hlen.symm

theorem sortByValue_headD_mem {hand : List Card} (h : hand ≠ []) :
    (sortByValue hand).headD dfltCard ∈ hand := by
  apply (sortByValue_perm hand).mem_iff.mp
  cases hs : sortByValue hand with
  | nil => exact absurd hs (sortByValue_ne_nil h)
  | cons a t => simp

/-- C10: with a non-empty hand and no active hand on the table, the AI decision
procedure returns a play (never a pass) at every difficulty and for every random
draw, and the played cards are a non-empty selection from the player's hand. -/
theorem ai_lead_always_plays (p : Player) (d : Difficulty) (r : ℚ) (h : p.hand ≠ []) :
    ∃ cs, makeAIMove p none d r = AIMove.play cs ∧ cs ≠ [] ∧ ∀ c ∈ cs, c ∈ p.hand := by
  have hperm := sortByValue_perm p.hand
  have hsingle : ∀ c ∈ [(sortByValue p.hand).headD dfltCard], c ∈ p.hand := by
    intro c hc
    rw [List.mem_singleton] at hc
    rw [hc]
    exact sortByValue_headD_mem h
  have hpairs : ∀ g, g ∈ findPairs (sortByValue p.hand) →
      g ≠ [] ∧ ∀ c ∈ g, c ∈ p.hand := by
    intro g hg
    have := findPairs_mem hg
    exact ⟨this.1, fun c hc => hperm.mem_iff.mp (this.2 c hc)⟩
  have htriples : ∀ g, g ∈ findTriples (sortByValue p.hand) →
      g ≠ [] ∧ ∀ c ∈ g, c ∈ p.hand := by
    intro g hg
    have := findTriples_mem hg
    exact ⟨this.1, fun c hc => hperm.mem_iff.mp (this.2 c hc)⟩
  cases d with
  | easy => exact ⟨_, rfl, by simp, hsingle⟩
  | medium =>
    show ∃ cs, playStartingHand p Difficulty.medium = AIMove.play cs ∧ _
    unfold playStartingHand
    cases hfp : findPairs (sortByValue p.hand) with
    | nil => exact ⟨_, rfl, by simp, hsingle⟩
    | cons g t =>
      have := hpairs g (by rw [hfp]; simp)
      exact ⟨g, rfl, this.1, this.2⟩
  | hard =>
    show ∃ cs, playStartingHand p Difficulty.hard = AIMove.play cs ∧ _
    unfold playStartingHand
    cases hft : findTriples (sortByValue p.hand) with
    | cons g t =>
      have := htriples g (by rw [hft]; simp)
      exact ⟨g, rfl, this.1, this.2⟩
    | nil =>
      cases hfp : findPairs (sortByValue p.hand) with
      | nil => exact ⟨_, rfl, by simp, hsingle⟩
      | cons g t =>
        have := hpairs g (by rw [hfp]; simp)
        exact ⟨g, rfl, this.1, this.2⟩

/-- Witness for C10: the six-card hard AI, asked to lead, does not pass. -/
theorem ai_lead_always_plays_witness :
    aiSixCards.hand ≠ [] ∧ makeAIMove aiSixCards none Difficulty.hard 0 ≠ AIMove.pass := by
  obtain ⟨cs, hcs, -, -⟩ := ai_lead_always_plays aiSixCards Difficulty.hard 0 (by decide)
  exact ⟨by decide, by rw [hcs]; simp⟩

theorem highcard_filter_pos {bh : List Card} :
    0 < (bh.filter (fun c => decide (getCardValue c > 10))).length ↔
      ∃ c ∈ bh, 10 < getCardValue c := by
  rw [List.length_pos_iff_exists_mem]
  constructor
  · rintro ⟨c, hc⟩
    rw [List.mem_filter] at hc
    exact ⟨c, hc.1, by simpa using hc.2⟩
  · rintro ⟨c, hc, hgt⟩
    exact ⟨c, List.mem_filter.mpr ⟨hc, by simpa using hgt⟩⟩

/-- C6 counterexample: the claim's "ranked above 10" set includes the king, but
the code's test is `getCardValue(c) > 10` and a king's value is exactly 10; at a
candidate `[K.clubs]` against a small trick with a large hand and an unlucky
draw, the spec-worded policy withholds while the code plays. -/
theorem ai_high_card_set_counterexample :
    shouldAIPlay aiSixCards singleThree [kingClubs] Difficulty.hard (9 / 10) = true
  ∧ shouldAIPlaySpec aiSixCards singleThree [kingClubs] Difficulty.hard (9 / 10) = false
  ∧ specIsHighCard kingClubs = true ∧ getCardValue kingClubs = 10 := by
  refine ⟨?_, ?_, by decide, by decide⟩
  · simp [shouldAIPlay, aiSixCards, singleThree, kingClubs, mkCard, getCardValue, rankIndex]
  · simp only [shouldAIPlaySpec]
    rw [if_pos (by decide)]
    rw [decide_eq_false]
    norm_num

/-- C6 amended: the hard AI's play-or-pass override can withhold only when all
three conditions hold — the candidate contains a card of value above 10 (the set
of such cards being exactly A, 2 and the jokers; J, Q, K have values 8, 9, 10
and never trigger it), the active hand has at most 3 cards, and the AI holds
more than 5 cards; when they hold it plays exactly when the draw is below 0.3,
and in every other case it plays. -/
theorem ai_hard_conservation (p : Player) (ch : PlayedHand) (bh : List Card) (r : ℚ) :
    (shouldAIPlay p ch bh Difficulty.hard r = false →
      (∃ c ∈ bh, 10 < getCardValue c) ∧ ch.cards.length ≤ 3 ∧ 5 < p.hand.length)
  ∧ ((∃ c ∈ bh, 10 < getCardValue c) ∧ ch.cards.length ≤ 3 ∧ 5 < p.hand.length →
      shouldAIPlay p ch bh Difficulty.hard r = decide (r < 3 / 10))
  ∧ (¬((∃ c ∈ bh, 10 < getCardValue c) ∧ ch.cards.length ≤ 3 ∧ 5 < p.hand.length) →
      shouldAIPlay p ch bh Difficulty.hard r = true)
  ∧ (∀ c : Card, 10 < getCardValue c ↔
      (c.isJoker = true ∨ c.rank = some Rank.rA ∨ c.rank = some Rank.r2)) := by
  have hcond : (0 < (bh.filter (fun c => decide (getCardValue c > 10))).length
        ∧ ¬(ch.cards.length > 3) ∧ p.hand.length > 5)
      ↔ ((∃ c ∈ bh, 10 < getCardValue c) ∧ ch.cards.length ≤ 3 ∧ 5 < p.hand.length) := by
    rw [highcard_filter_pos, Nat.not_lt]
  have heq : ∀ (b : Bool), (0 < (bh.filter (fun c => decide (getCardValue c > 10))).length
        ∧ ¬(ch.cards.length > 3) ∧ p.hand.length > 5 → decide (r < 3 / 10) = b) →
      (¬(0 < (bh.filter (fun c => decide (getCardValue c > 10))).length
        ∧ ¬(ch.cards.length > 3) ∧ p.hand.length > 5) → true = b) →
      shouldAIPlay p ch bh Difficulty.hard r = b := by
    intro b hy hn
    simp only [shouldAIPlay]
    split_ifs with hc
    · exact hy hc
    · exact hn hc
  refine ⟨?_, ?_, ?_, ?_⟩
  · intro hfalse
    by_contra hno
    have : shouldAIPlay p ch bh Difficulty.hard r = true :=
      heq true (fun hc => absurd (hcond.mp hc) hno) (fun _ => rfl)
    rw [this] at hfalse
    simp at hfalse
  · intro hyes
    simp only [shouldAIPlay]
    rw [if_pos (hcond.mpr hyes)]
  · intro hno
    simp only [shouldAIPlay]
    rw [if_neg (fun hc => hno (hcond.mp hc))]
  · intro c
    cases hcj : c.isJoker <;> simp only [getCardValue, hcj, Bool.false_eq_true, if_false, if_true]
    · cases hr : c.rank with
      | none => simp
      | some rk => cases rk <;> simp [rankIndex]
    · split_ifs <;> simp

/-- Witness for C6 (amended): with an ace candidate, a one-card trick, six cards
in hand and a draw of 0.9 the hard AI withholds; against a four-card trick it
plays. -/
theorem ai_hard_conservation_witness :
    shouldAIPlay aiSixCards singleThree [aceClubs] Difficulty.hard (9 / 10) = false
  ∧ shouldAIPlay aiSixCards bombAces4 [aceClubs] Difficulty.hard (9 / 10) = true := by
  have h1 := (ai_hard_conservation aiSixCards singleThree [aceClubs] (9 / 10)).2.1
    ⟨⟨aceClubs, by simp, by decide⟩, by decide, by decide⟩
  have h2 := (ai_hard_conservation aiSixCards bombAces4 [aceClubs] (9 / 10)).2.2.1
    (fun hc => absurd hc.2.1 (by decide))
  exact ⟨h1.trans (decide_eq_false (by norm_num)), h2⟩

/-- C8: a pass submitted while no hand is active is rejected — the pass entry
point yields no successor state, so nothing is mutated: no passed-set addition,
no turn advance, no trick collection. -/
theorem pass_needs_active_hand (gs : GameState) (pid : String)
    (h : gs.currentHand = none) : passAction gs pid = none := by
  simp [passAction, h]

/-- Witness for C8: in the fresh-trick state, the current player's pass attempt
produces no transition. -/
theorem pass_needs_active_hand_witness : passAction wLeadState "a" = none :=
  pass_needs_active_hand wLeadState "a" rfl

theorem getD_set_self (l : List (List Card)) (j : Nat) (v : List Card) (hj : j < l.length) :
    (l.set j v).getD j [] = v := by
  induction l generalizing j with
  | nil => simp at hj
  | cons a t ih =>
    cases j with
    | zero => rfl
    | succ n => exact ih n (by simpa using hj)

theorem getD_set_other (l : List (List Card)) (j k : Nat) (v : List Card) (hjk : ¬(j = k)) :
    (l.set j v).getD k [] = l.getD k [] := by
  induction l generalizing j k with
  | nil => simp
  | cons a t ih =>
    cases j with
    | zero =>
      cases k with
      | zero => exact absurd rfl hjk
      | succ m => rfl
    | succ n =>
      cases k with
      | zero => rfl
      | succ m => exact ih n m (fun hnm => hjk (by rw [hnm]))

theorem getD_replicate_nil (P j : Nat) : ((List.replicate P ([] : List Card)).getD j []) = [] := by
  induction P generalizing j with
  | zero => simp
  | succ n ih =>
    cases j with
    | zero => rfl
    | succ m => exact ih m

/-- Hand `j` after running the deal loop: whatever it already held, followed by
the cards whose (absolute) index is congruent to `j` modulo the player count. -/
theorem dealGo_getD (P : Nat) (hP : 0 < P) (deck : List Card) :
    ∀ (i : Nat) (hands : List (List Card)), hands.length = P → ∀ j, j < P →
      (dealGo P deck i hands).getD j [] =
        hands.getD j [] ++ ((List.enumFrom i deck).filter
          (fun ic => decide (ic.1 % P = j))).map Prod.snd := by
  induction deck with
  | nil => intro i hands _ j _; simp [dealGo]
  | cons c rest ih =>
    intro i hands hlen j hj
    have hset : (hands.set (i % P) (hands.getD (i % P) [] ++ [c])).length = P := by
      rw [List.length_set]; exact hlen
    rw [show dealGo P (c :: rest) i hands
        = dealGo P rest (i + 1) (hands.set (i % P) (hands.getD (i % P) [] ++ [c])) from rfl]
    rw [ih (i + 1) _ hset j hj]
    rw [show List.enumFrom i (c :: rest) = (i, c) :: List.enumFrom (i + 1) rest from rfl]
    by_cases hij : i % P = j
    · subst hij
      rw [getD_set_self hands (i % P) _ (by rw [hlen]; exact Nat.mod_lt _ hP)]
      simp [List.filter_cons, List.append_assoc]
    · rw [getD_set_other hands (i % P) j _ hij]
      simp [List.filter_cons, hij]

theorem join_set_extend_perm (hands : List (List Card)) (k : Nat) (c : Card)
    (hk : k < hands.length) :
    ((hands.set k (hands.getD k [] ++ [c])).flatten).Perm (hands.flatten ++ [c]) := by
  induction hands generalizing k with
  | nil => simp at hk
  | cons h t ih =>
    cases k with
    | zero =>
      simp only [List.set_cons_zero, List.getD_cons_zero, List.flatten_cons,
        List.append_assoc]
      exact List.Perm.append_left h List.perm_append_comm
    | succ n =>
      simp only [List.set_cons_succ, List.getD_cons_succ, List.flatten_cons,
        List.append_assoc]
      exact (ih n (by simpa using hk)).append_left h

theorem dealGo_length (P : Nat) (deck : List Card) :
    ∀ (i : Nat) (hands : List (List Card)), (dealGo P deck i hands).length = hands.length := by
  induction deck with
  | nil => intro i hands; rfl
  | cons c rest ih =>
    intro i hands
    rw [show dealGo P (c :: rest) i hands
        = dealGo P rest (i + 1) (hands.set (i % P) (hands.getD (i % P) [] ++ [c])) from rfl,
      ih, List.length_set]

theorem flatten_replicate_nil (P : Nat) : (List.replicate P ([] : List Card)).flatten = [] := by
  induction P with
  | zero => rfl
  | succ n ih => simp [List.replicate_succ, ih]

theorem dealGo_flatten_perm (P : Nat) (hP : 0 < P) (deck : List Card) :
    ∀ (i : Nat) (hands : List (List Card)), hands.length = P →
      ((dealGo P deck i hands).flatten).Perm (hands.flatten ++ deck) := by
  induction deck with
  | nil => intro i hands _; simp [dealGo]
  | cons c rest ih =>
    intro i hands hlen
    have hlt : i % P < hands.length := by rw [hlen]; exact Nat.mod_lt _ hP
    have hset : (hands.set (i % P) (hands.getD (i % P) [] ++ [c])).length = P := by
      rw [List.length_set]; exact hlen
    have h1 := ih (i + 1) _ hset
    have h2 := (join_set_extend_perm hands (i % P) c hlt).append_right rest
    have h3 : (hands.flatten ++ [c]) ++ rest = hands.flatten ++ (c :: rest) := by
      rw [List.append_assoc]; rfl
    exact h1.trans (h3 ▸ h2)

theorem enumFrom_getD_mem (l : List Card) : ∀ (n i : Nat), i < l.length →
    (n + i, l.getD i dfltCard) ∈ List.enumFrom n l := by
  induction l with
  | nil => intro n i h; simp at h
  | cons a t ih =>
    intro n i h
    cases i with
    | zero => simp
    | succ m =>
      have hm := ih (n + 1) m (by simpa using h)
      exact List.mem_cons_of_mem _ (by rw [show n + (m + 1) = n + 1 + m from by omega]; exact hm)

/-- C9: for every deck and every player count at least 1, dealing sends card `i`
to hand `i mod P`, produces `P` hands, and the concatenation of all dealt hands
is a permutation of the input deck — no card dropped or duplicated, whether or
not the deck size divides evenly. -/
theorem deal_round_robin (deck : List Card) (P : Nat) (hP : 1 ≤ P) :
    ((dealCards deck P).flatten).Perm deck
  ∧ (dealCards deck P).length = P
  ∧ ∀ i, i < deck.length → deck.getD i dfltCard ∈ (dealCards deck P).getD (i % P) [] := by
  have hP' : 0 < P := hP
  refine ⟨?_, ?_, ?_⟩
  · have hp := dealGo_flatten_perm P hP' deck 0 (List.replicate P []) (by simp)
    rw [flatten_replicate_nil] at hp
    simpa using hp
  · rw [show dealCards deck P = dealGo P deck 0 (List.replicate P []) from rfl,
      dealGo_length, List.length_replicate]
  · intro i hi
    have hchar := dealGo_getD P hP' deck 0 (List.replicate P []) (by simp) (i % P)
      (Nat.mod_lt _ hP')
    rw [show dealCards deck P = dealGo P deck 0 (List.replicate P []) from rfl, hchar,
      getD_replicate_nil]
    simp only [List.nil_append]
    apply List.mem_map.mpr
    refine ⟨(i, deck.getD i dfltCard), ?_, rfl⟩
    apply List.mem_filter.mpr
    refine ⟨?_, by simp⟩
    have hm := enumFrom_getD_mem deck 0 i hi
    simpa using hm

/-- Witness for C9: dealing the five-card fixture deck to two players keeps all
five cards, and card 2 lands in hand 0. -/
theorem deal_round_robin_witness :
    ((dealCards wDeck 2).flatten).Perm wDeck
  ∧ wDeck.getD 2 dfltCard ∈ (dealCards wDeck 2).getD 0 [] :=
  ⟨(deal_round_robin wDeck 2 (by norm_num)).1,
   (deal_round_robin wDeck 2 (by norm_num)).2.2 2 (by decide)⟩

theorem foldl_points_eq_sum (l : List Card) : ∀ (s : Nat),
    l.foldl (fun a c => a + getCardPoints c) s = s + (l.map getCardPoints).sum := by
  induction l with
  | nil => intro s; simp
  | cons c t ih => intro s; simp [ih, Nat.add_assoc]

theorem filter_pos_points_sum (l : List Card) :
    ((l.filter (fun c => decide (0 < getCardPoints c))).map getCardPoints).sum
      = (l.map getCardPoints).sum := by
  induction l with
  | nil => rfl
  | cons c t ih =>
    by_cases hc : 0 < getCardPoints c
    · simp [List.filter_cons, hc, ih]
    · have h0 : getCardPoints c = 0 := by omega
      simp [List.filter_cons, hc, ih, h0]

/-- The trick value the source computes — sum over the positive-point cards of
the pool — equals the plain sum of point values of every card in the pool. -/
theorem collect_points_eq (l : List Card) :
    (l.filter (fun c => decide (0 < getCardPoints c))).foldl (fun sum c => sum + getCardPoints c) 0
      = (l.map getCardPoints).sum := by
  rw [foldl_points_eq_sum, filter_pos_points_sum]
  simp

theorem getD_map_player (f : Player → Player) (l : List Player) :
    ∀ (i : Nat), i < l.length → (l.map f).getD i dfltPlayer = f (l.getD i dfltPlayer) := by
  induction l with
  | nil => intro i h; simp at h
  | cons a t ih =>
    intro i h
    cases i with
    | zero => rfl
    | succ n => exact ih n (by simpa using h)

/-- C1: when a pass makes the passed-set consist of exactly the non-finished
players other than the active hand's owner, the trick is collected: the owner's
`tempPoints` grow by the sum of the point values of every card in the
played-card pool (the whole trick), the active hand is cleared, the pool is
emptied, the passed-set is cleared, and the owner becomes the current player. -/
theorem pass_completes_trick (gs : GameState) (pid : String) (ch : PlayedHand)
    (hch : gs.currentHand = some ch)
    (hperm : (gs.passedPlayerIds ++ [pid]).Perm
      (((gs.players.filter (fun p => !p.hasFinished)).filter
        (fun p => decide (¬(p.id = ch.playerId)))).map Player.id)) :
    handlePass gs pid = collectCards gs
  ∧ (handlePass gs pid).currentHand = none
  ∧ (handlePass gs pid).playedCards = []
  ∧ (handlePass gs pid).passedPlayerIds = []
  ∧ (handlePass gs pid).currentPlayerId = ch.playerId
  ∧ (handlePass gs pid).players.length = gs.players.length
  ∧ ∀ i, i < gs.players.length →
      (handlePass gs pid).players.getD i dfltPlayer =
        (if (gs.players.getD i dfltPlayer).id = ch.playerId
         then { gs.players.getD i dfltPlayer with
                tempPoints := (gs.players.getD i dfltPlayer).tempPoints
                  + (gs.playedCards.map getCardPoints).sum }
         else gs.players.getD i dfltPlayer) := by
  have hpredeq : (gs.players.filter (fun p => !p.hasFinished)).filter
        (fun p => decide (¬(some p.id = gs.currentHand.map PlayedHand.playerId)))
      = (gs.players.filter (fun p => !p.hasFinished)).filter
        (fun p => decide (¬(p.id = ch.playerId))) := by
    apply List.filter_congr
    intro p _
    rw [hch]
    simp
  have hlen : ((gs.players.filter (fun p => !p.hasFinished)).filter
        (fun p => decide (¬(some p.id = gs.currentHand.map PlayedHand.playerId)))).length
      = (gs.passedPlayerIds ++ [pid]).length := by
    rw [hpredeq]
    exact (List.length_map _ _).symm.trans hperm.length_eq.symm
  have hcollect : handlePass gs pid = collectCards gs := by
    unfold handlePass
    rw [if_pos hlen]
  have hcc : collectCards gs = { gs with
      players := gs.players.map (fun p =>
        if p.id = ch.playerId then
          { p with tempPoints := p.tempPoints
              + ((gs.playedCards.filter (fun c => decide (0 < getCardPoints c))).foldl
                  (fun sum c => sum + getCardPoints c) 0) }
        else p),
      currentHand := none, playedCards := [], passedPlayerIds := [],
      currentPlayerId := ch.playerId } := by
    unfold collectCards
    rw [hch]
  refine ⟨hcollect, ?_, ?_, ?_, ?_, ?_, ?_⟩
  · rw [hcollect, hcc]
  · rw [hcollect, hcc]
  · rw [hcollect, hcc]
  · rw [hcollect, hcc]
  · rw [hcollect, hcc]
    exact List.length_map _ _
  · intro i hi
    rw [hcollect, hcc]
    show (gs.players.map _).getD i dfltPlayer = _
    rw [getD_map_player _ gs.players i hi, collect_points_eq]

/-- Witness for C1: in the fixture state `a` led the five of clubs (5 points),
`b` passed, and `c`'s pass closes the trick — `a` collects 5 temp points and
leads again. -/
theorem pass_completes_trick_witness :
    (handlePass wPassState "c").currentPlayerId = "a"
  ∧ (handlePass wPassState "c").currentHand = none
  ∧ (handlePass wPassState "c").playedCards = []
  ∧ (handlePass wPassState "c").passedPlayerIds = []
  ∧ ((handlePass wPassState "c").players.getD 0 dfltPlayer).tempPoints = 5 := by
  have h := pass_completes_trick wPassState "c" wTrickHand rfl (by decide)
  have h0 := h.2.2.2.2.2.2 0 (by decide)
  refine ⟨h.2.2.2.2.1, h.2.1, h.2.2.1, h.2.2.2.1, ?_⟩
  rw [h0]
  decide

theorem getD_mem_player (l : List Player) : ∀ (i : Nat), i < l.length →
    l.getD i dfltPlayer ∈ l := by
  induction l with
  | nil => intro i h; simp at h
  | cons a t ih =>
    intro i h
    cases i with
    | zero => simp
    | succ n => exact List.mem_cons_of_mem a (ih n (by simpa using h))

/-- C2: round-end redistribution — every player's total grows by their own
`tempPoints`, except that the finish-position-1 player additionally gains the
last player's `tempPoints`, the finish-position-2 player additionally gains the
point value of the last player's remaining hand, and the last player's gain is
exactly zero; afterwards every player's `tempPoints` is 0 and the finish flags
are cleared.  (Stated for states with unique position-1 and position-2 holders
and pairwise-distinct player ids, which the finishing order guarantees.) -/
theorem round_end_redistribution (players : List Player) (lastPlayer fp sp : Player)
    (hfp : players.find? (fun p => decide (p.finishPosition = some 1)) = some fp)
    (hsp : players.find? (fun p => decide (p.finishPosition = some 2)) = some sp)
    (hids : (players.map Player.id).Nodup)
    (huniq1 : ∀ p ∈ players, p.finishPosition = some 1 → p.id = fp.id)
    (huniq2 : ∀ p ∈ players, p.finishPosition = some 2 → p.id = sp.id) :
    (endRound players lastPlayer).isSome = true
  ∧ ((endRound players lastPlayer).getD []).length = players.length
  ∧ ∀ i, i < players.length →
      ((((endRound players lastPlayer).getD []).getD i dfltPlayer).totalPoints
        = (players.getD i dfltPlayer).totalPoints
          + (if (players.getD i dfltPlayer).id = lastPlayer.id then 0
             else (players.getD i dfltPlayer).tempPoints
               + (if (players.getD i dfltPlayer).finishPosition = some 1
                  then lastPlayer.tempPoints else 0)
               + (if (players.getD i dfltPlayer).finishPosition = some 2
                  then handPoints lastPlayer.hand else 0)))
    ∧ (((endRound players lastPlayer).getD []).getD i dfltPlayer).tempPoints = 0
    ∧ (((endRound players lastPlayer).getD []).getD i dfltPlayer).hasFinished = false
    ∧ (((endRound players lastPlayer).getD []).getD i dfltPlayer).finishPosition = none := by
  have hend : endRound players lastPlayer = some (players.map (fun p =>
      { p with
        totalPoints := p.totalPoints
          + (if p.id = lastPlayer.id then 0
             else ((if p.id = sp.id
                    then (if p.id = fp.id then p.tempPoints + lastPlayer.tempPoints
                          else p.tempPoints) + handPoints lastPlayer.hand
                    else (if p.id = fp.id then p.tempPoints + lastPlayer.tempPoints
                          else p.tempPoints)))),
        tempPoints := 0,
        hasFinished := false,
        finishPosition := none })) := by
    unfold endRound
    rw [hfp, hsp]
  have hfp_mem : fp ∈ players := List.mem_of_find?_eq_some hfp
  have hsp_mem : sp ∈ players := List.mem_of_find?_eq_some hsp
  have hfp_pos : fp.finishPosition = some 1 := by
    have hb := List.find?_some hfp
    simp at hb
    exact hb
  have hsp_pos : sp.finishPosition = some 2 := by
    have hb := List.find?_some hsp
    simp at hb
    exact hb
  rw [hend]
  refine ⟨rfl, by simp, ?_⟩
  intro i hi
  simp only [Option.getD_some]
  rw [getD_map_player _ players i hi]
  have hpmem : players.getD i dfltPlayer ∈ players := getD_mem_player players i hi
  have hiff1 : (players.getD i dfltPlayer).id = fp.id ↔
      (players.getD i dfltPlayer).finishPosition = some 1 := by
    constructor
    · intro hid
      rw [List.inj_on_of_nodup_map hids hpmem hfp_mem hid]
      exact hfp_pos
    · exact huniq1 _ hpmem
  have hiff2 : (players.getD i dfltPlayer).id = sp.id ↔
      (players.getD i dfltPlayer).finishPosition = some 2 := by
    constructor
    · intro hid
      rw [List.inj_on_of_nodup_map hids hpmem hsp_mem hid]
      exact hsp_pos
    · exact huniq2 _ hpmem
  refine ⟨?_, rfl, rfl, rfl⟩
  show (players.getD i dfltPlayer).totalPoints + _ = _
  rw [show (if (players.getD i dfltPlayer).finishPosition = some 1
      then lastPlayer.tempPoints else 0)
      = (if (players.getD i dfltPlayer).id = fp.id then lastPlayer.tempPoints else 0)
    from if_congr hiff1.symm rfl rfl]
  rw [show (if (players.getD i dfltPlayer).finishPosition = some 2
      then handPoints lastPlayer.hand else 0)
      = (if (players.getD i dfltPlayer).id = sp.id then handPoints lastPlayer.hand else 0)
    from if_congr hiff2.symm rfl rfl]
  split_ifs <;> omega

/-- Witness for C2: with P1 first (12 temp points), P2 second (5 temp points)
and P3 last (3 temp points, king in hand — 10 hand points), totals become
12 + 3 = 15 for P1, 5 + 10 = 15 for P2 and 0 for P3, and P1's temp points are
reset. -/
theorem round_end_redistribution_witness :
    ((((endRound wRoundPlayers wLastPlace).getD []).getD 0 dfltPlayer).totalPoints = 15)
  ∧ ((((endRound wRoundPlayers wLastPlace).getD []).getD 1 dfltPlayer).totalPoints = 15)
  ∧ ((((endRound wRoundPlayers wLastPlace).getD []).getD 2 dfltPlayer).totalPoints = 0)
  ∧ ((((endRound wRoundPlayers wLastPlace).getD []).getD 0 dfltPlayer).tempPoints = 0) := by
  have h := round_end_redistribution wRoundPlayers wLastPlace wFirstPlace wSecondPlace
    (by decide) (by decide) (by decide) (by decide) (by decide)
  have h0 := h.2.2 0 (by decide)
  have h1 := h.2.2 1 (by decide)
  have h2 := h.2.2 2 (by decide)
  refine ⟨?_, ?_, ?_, h0.2.1⟩
  · rw [h0.1]; decide
  · rw [h1.1]; decide
  · rw [h2.1]; decide

end WushiK
